import Mathlib

/-!
Verification of the sheepai article-ingestion pipeline.

This file gives a shallow embedding, in Lean 4, of the core pipeline of the
sheepai repository (scraper, AI enrichment, credibility scoring, relevance
scoring, email fan-out, scheduler persistence loop, embedding similarity),
and proves the specification claims about it.

Conventions of the embedding:
- JavaScript strings are `String`; `s.toLowerCase()` is modelled ASCII-wise
  by mapping `Char.toLower`; `a.includes(b)` is `strHas a b` (literal
  substring search, matching the code's use of keyword-built regexes on
  metacharacter-free keywords); `str.match(re, 'g').length` for a literal
  pattern is `occCount` (leftmost, non-overlapping, and the empty pattern
  matches at every position, as the empty JS regex does).
- JavaScript numbers in the scoring paths are modelled as `Rat` (the code
  only adds, scales by decimal constants, clamps and rounds, so rationals
  are exact); `Math.round` is `round : Rat -> Int`, which agrees with the
  JS half-up semantics; final integer scores are `Int`.
- `null`/`undefined` results are `Option.none`; a JS value-or-null field is
  an `Option`; dates are integer timestamps (`Int`).
- external collaborators (the AI completion call, `JSON.parse` of the AI
  reply, the embedding model) are passed in as explicit parameters, so a
  theorem quantifying over them covers every behaviour of the collaborator.
-/

namespace SheepAI

/-- Does the character list start with the given pattern list?
Embeds the prefix test used by JS `String.prototype.includes`. -/
def chStart : List Char → List Char → Bool
  | _, [] => true
  | [], _ :: _ => false
  | a :: as, b :: bs => a = b && chStart as bs

/-- Index of the first occurrence of `pat` in `hay`, if any. -/
def chFind : List Char → List Char → Option Nat
  | hay, pat =>
    if chStart hay pat then some 0
    else
      match hay with
      | [] => none
      | _ :: t => (chFind t pat).map (· + 1)

/-- JS `hay.includes(pat)`: literal substring containment. -/
def strHas (hay pat : String) : Bool :=
  (chFind hay.data pat.data).isSome

/-- Fuel-driven counter of leftmost non-overlapping occurrences of a
non-empty pattern, mirroring a global JS regex scan over a literal
pattern: after a match the scan resumes right after the matched text. -/
def ccGo (pat : List Char) : Nat → List Char → Nat
  | 0, _ => 0
  | _, [] => 0
  | fuel + 1, h :: t =>
    if chStart (h :: t) pat then ccGo pat fuel (t.drop (pat.length - 1)) + 1
    else ccGo pat fuel t

/-- JS `(hay.match(new RegExp(pat, 'g')) || []).length` for a literal
pattern: the empty pattern matches at every position (length + 1 times),
a non-empty pattern is counted leftmost and non-overlapping. -/
def occCount (hay pat : String) : Nat :=
  if pat.data = [] then hay.data.length + 1
  else ccGo pat.data hay.data.length hay.data

/-- JS `s.toLowerCase()`, ASCII-wise. -/
def strLower (s : String) : String :=
  ⟨s.data.map Char.toLower⟩

/-- JS `s.trim()`: strips whitespace from both ends. -/
def strTrim (s : String) : String :=
  ⟨((s.data.dropWhile Char.isWhitespace).reverse.dropWhile Char.isWhitespace).reverse⟩

/-- JS `parts.join(sep)`. -/
def strJoin (sep : String) : List String → String
  | [] => ""
  | [x] => x
  | x :: y :: rest => x ++ sep ++ strJoin sep (y :: rest)

/-- JS `s.replace(pat, '')` for a plain string pattern: removes the first
occurrence of `pat`, if any. -/
def removeFirstSub (s pat : String) : String :=
  match chFind s.data pat.data with
  | none => s
  | some i => ⟨s.data.take i ++ s.data.drop (i + pat.data.length)⟩

/-- Sentiment enumeration of the article schema
(`enum: ['positive', 'neutral', 'negative']`). -/
inductive Sentiment
  | positive
  | neutral
  | negative
deriving DecidableEq, Repr

/-- Article record, covering both the raw scraped shape and the enriched
persisted shape of `models/Article.js` (fields irrelevant to the verified
claims, such as the `scrapedAt`/`processedAt` wall-clock timestamps and the
`source` label, are omitted; dates are integer timestamps). -/
structure Art where
  url : String := ""
  title : String := ""
  author : String := ""
  publishedDate : Option Int := none
  content : String := ""
  summary : String := ""
  keyPoints : List String := []
  tags : List String := []
  sentiment : Sentiment := .neutral
  credibilityScore : Option Int := none
  embedding : Option (List Rat) := none
deriving DecidableEq, Repr

/-- Subscriber record as the fan-out code reads it from the store
(`models/User.js` plus the `semanticQuery` field the signup controller
tries to set): `category` and `semanticQuery` are optional at this level
because the fan-out code guards both with optional chaining. -/
structure UserR where
  email : String := ""
  category : Option String := none
  semanticQuery : Option String := none
  minCredibility : Option Int := none
deriving DecidableEq, Repr

/-! ## Credibility service (`services/credibilityService.js`) -/

/-- Value of a decimal digit run, as JS `parseInt` reads the regex group
`(\d+)`. -/
def digitsVal (ds : List Char) : Nat :=
  ds.foldl (fun n c => n * 10 + (c.toNat - 48)) 0

/-- Embeds the fallback regex extraction `text.match(/pat[^\d]*(\d+)/i)`:
case-insensitively find `pat`, then the first digit run after it. -/
def numAfter (text pat : String) : Option Nat :=
  match chFind (strLower text).data pat.data with
  | none => none
  | some i =>
    let rest := ((strLower text).data.drop (i + pat.data.length)).dropWhile (fun c => !c.isDigit)
    let ds := rest.takeWhile Char.isDigit
    if ds = [] then none else some (digitsVal ds)

/-- The `RELIABLE_SOURCES` reputation list of `credibilityService.js`. -/
def RELIABLE_SOURCES : List String :=
  ["thehackernews.com", "krebsonsecurity.com", "arstechnica.com", "techcrunch.com",
   "wired.com", "zdnet.com", "csoonline.com", "darkreading.com", "securityweek.com",
   "threatpost.com", "bleepingcomputer.com", "cyberscoop.com", "therecord.media"]

/-- The `UNRELIABLE_SOURCES` list of `credibilityService.js` (empty in the
source). -/
def UNRELIABLE_SOURCES : List String := []

/-- Embeds `extractDomain`: `new URL(url).hostname.replace('www.', '')`,
returning `none` where the URL constructor throws. Modelled for the
http(s) URL shape the pipeline handles: a scheme marker `://` must be
present, the host runs to the first `/`, `:`, `?` or `#`, is lowercased
(as the WHATWG parser does), and the first occurrence of `www.` is then
removed. -/
def extractDomain (url : String) : Option String :=
  match chFind url.data "://".data with
  | none => none
  | some i =>
    let host := ((url.data.drop (i + 3)).takeWhile
      (fun c => c ≠ '/' && c ≠ ':' && c ≠ '?' && c ≠ '#')).map Char.toLower
    if host = [] then none
    else some (removeFirstSub ⟨host⟩ "www.")

/-- Embeds `getSourceReliabilityScore` (0-20 points): 20 when the domain
contains a known-reliable entry, 0 when it contains a known-unreliable
entry, 10 otherwise, and 10 when no domain can be extracted. -/
def getSourceReliabilityScore (url : String) : Int :=
  match extractDomain url with
  | none => 10
  | some domain =>
    let dl := strLower domain
    if RELIABLE_SOURCES.any (fun r => strHas dl r) then 20
    else if UNRELIABLE_SOURCES.any (fun r => strHas dl r) then 0
    else 10

/-- Embeds `isRecent`: a present date counts as recent when it is at or
after the thirty-days-ago mark `t30`; an absent date is never recent. -/
def isRecent (t30 : Int) (publishedDate : Option Int) : Bool :=
  match publishedDate with
  | none => false
  | some p => t30 ≤ p

/-- Does the lowercased author text match one of the credible-author
patterns (`/ph\.?d\.?/`, `/professor/`, `/researcher/`,
`/security expert/`, `/cybersecurity/`)? The first pattern matches exactly
when the text contains `phd` or `ph.d`. -/
def credibleAuthor (authorLower : String) : Bool :=
  strHas authorLower "phd" || strHas authorLower "ph.d" ||
  strHas authorLower "professor" || strHas authorLower "researcher" ||
  strHas authorLower "security expert" || strHas authorLower "cybersecurity"

/-- Embeds `assessAuthorCredibility`: 0 for a blank author, 5 when a
credibility-indicator pattern matches, otherwise 2. -/
def assessAuthorCredibility (author : String) : Int :=
  if strTrim author = "" then 0
  else if credibleAuthor (strLower author) then 5 else 2

/-- AI rubric record parsed from (or regex-extracted out of) the model
response; the last two fields are carried but not used by the scoring
formula, as in the source. -/
structure AiAnalysis where
  factualAccuracy : Rat := 0
  sensationalism : Rat := 0
  bias : Rat := 0
  citationQuality : Rat := 0
  temporalRelevance : Rat := 0
  authorCredibility : Rat := 0
deriving DecidableEq, Repr

/-- JS `x || d` on numbers in the scoring path: `0` (and an absent field,
which the embedding folds into `0`) falls back to the default. -/
def jsOr (x d : Rat) : Rat :=
  if x = 0 then d else x

/-- Embeds the fallback branch of the response parse (lines 215-231):
regex-extract each rubric field from the response text, with the fixed
neutral defaults 65/35/65/55 and recency/author adjusted defaults for the
two unused fields. -/
def fallbackExtract (text : String) (t30 : Int) (a : Art) : AiAnalysis :=
  { factualAccuracy := (numAfter text "factual").elim 65 (fun n => (n : Rat)),
    sensationalism := (numAfter text "sensational").elim 35 (fun n => (n : Rat)),
    bias := (numAfter text "bias").elim 65 (fun n => (n : Rat)),
    citationQuality := (numAfter text "citation").elim 55 (fun n => (n : Rat)),
    temporalRelevance := (numAfter text "temporal").elim
      (if isRecent t30 a.publishedDate then 80 else 50) (fun n => (n : Rat)),
    authorCredibility := (numAfter text "author").elim
      (if a.author ≠ "" then 60 else 30) (fun n => (n : Rat)) }

/-- Embeds the response-parsing step (lines 207-232): the parsed rubric
when `JSON.parse` succeeded, the regex-extracted fallback otherwise. -/
def parsedAnalysis (jsonParse : String → Option AiAnalysis) (text : String)
    (t30 : Int) (a : Art) : AiAnalysis :=
  match jsonParse text with
  | some an => an
  | none => fallbackExtract text t30 a

/-- Embeds the AI component of the score (0-80 points): each rubric field
is defaulted through `||`, scaled, and individually clamped to its cap
(30/20/15/15), and the sum is rounded. -/
def aiComponentScore (an : AiAnalysis) : Int :=
  let factualScore := min (max (jsOr an.factualAccuracy 65 * (3 / 10)) 0) 30
  let sensationalismScore := min (max ((100 - jsOr an.sensationalism 35) * (2 / 10)) 0) 20
  let biasScore := min (max (jsOr an.bias 65 * (15 / 100)) 0) 15
  let citationScore := min (max (jsOr an.citationQuality 55 * (15 / 100)) 0) 15
  round (factualScore + sensationalismScore + biasScore + citationScore)

/-- Embeds `assessCredibility`. The external effects are explicit
parameters: `aiConfigured` is whether `getAIClient()` returned a client,
`callResult` is the completion call (`.error` when the call, or anything up
to obtaining the response text, throws — the outer catch), and `jsonParse`
models lines 209-213 (code-fence stripping plus `JSON.parse`), `none`
meaning the parse threw so the regex fallback runs. The function is total:
every failure path lands in a numeric score, mirroring the
never-throws contract of the source. -/
def assessCredibility (aiConfigured : Bool) (callResult : Except Unit String)
    (jsonParse : String → Option AiAnalysis) (t30 : Int) (a : Art) : Int :=
  if !aiConfigured then round ((getSourceReliabilityScore a.url : Rat) * 5)
  else
    match callResult with
    | .error _ => round ((getSourceReliabilityScore a.url : Rat) * 5)
    | .ok responseText =>
      let sourceScore := getSourceReliabilityScore a.url
      let temporalScore : Int := if isRecent t30 a.publishedDate then 5 else 2
      let authorScore := assessAuthorCredibility a.author
      let aiScore := aiComponentScore (parsedAnalysis jsonParse responseText t30 a)
      min (max (aiScore + sourceScore + temporalScore + authorScore) 0) 100

/-! ## Relevance scorers
(`services/emailService.js` / `frontend/src/utils/relevance.js`) -/

/-- Embeds the notification-time `calculateRelevanceScore` of
`emailService.js` (lines 184-218). The JS function always returns a
number; the `Option` codomain (never `none` here) keeps it comparable
with the search-time scorer, whose JS counterpart can return `null`.
An empty (falsy) category short-circuits to 50. The source also builds
an `allText` concatenation that it never reads; that dead binding is
not modelled. -/
def beCalculateRelevanceScore (article : Art) (userCategory : String) : Option Int :=
  if userCategory = "" then some 50
  else
    let categoryLower := strTrim (strLower userCategory)
    let title := strLower article.title
    let content := strLower article.content
    let summary := strLower article.summary
    let tags := strJoin " " (article.tags.map strLower)
    let score : Int :=
      (if strHas title categoryLower then 40 else 0) +
      (if strHas summary categoryLower then 30 else 0) +
      (min (occCount content categoryLower * 5) 20 : Nat) +
      (if strHas tags categoryLower then 10 else 0)
    some (min (max score 0) 100)

/-- Embeds the search-time `calculateRelevanceScore` of
`frontend/src/utils/relevance.js`: `none` models the JS `null` returned
for an empty or whitespace-only category. -/
def feCalculateRelevanceScore (article : Art) (category : String) : Option Int :=
  if category = "" || strTrim category = "" then none
  else
    let categoryLower := strTrim (strLower category)
    let title := strLower article.title
    let content := strLower article.content
    let summary := strLower article.summary
    let tags := article.tags.map (fun t => strTrim (strLower t))
    let tagScore : Int := tags.foldl (fun acc tag =>
      acc +
        (if tag = categoryLower then 15
         else if strHas tag categoryLower then 10
         else if strHas categoryLower tag && tag.length > 2 then 5
         else 0)) 0
    let score : Int :=
      (if strHas title categoryLower then 40 else 0) +
      (if strHas summary categoryLower then 30 else 0) +
      (min (occCount content categoryLower * 5) 20 : Nat) +
      min tagScore 25
    some (min (max score 0) 100)

/-! ## Embedding service (`services/embeddingService.js`) -/

/-- Loop accumulator `dotProduct` of `cosineSimilarity` (both inputs have
equal length when this is computed). -/
def dotProduct (a b : List ℝ) : ℝ :=
  (List.zipWith (· * ·) a b).sum

/-- Loop accumulator `magnitude` (before the square root) of
`cosineSimilarity`. -/
def sumSq (v : List ℝ) : ℝ :=
  (v.map (fun x => x * x)).sum

/-- Embeds `cosineSimilarity(vecA, vecB)`: 0 when a vector is absent or
the lengths differ, 0 when either magnitude is zero, and the normalized
dot product otherwise. Vector components are real numbers, so the
square-root arithmetic is exact. -/
noncomputable def cosineSimilarity (vecA vecB : Option (List ℝ)) : ℝ :=
  match vecA, vecB with
  | some a, some b =>
    if a.length ≠ b.length then 0
    else
      let magA := Real.sqrt (sumSq a)
      let magB := Real.sqrt (sumSq b)
      if magA = 0 ∨ magB = 0 then 0
      else dotProduct a b / (magA * magB)
  | _, _ => 0

/-! ## AI processor (`services/aiProcessor.js`, the enrichment driver) -/

/-- Shape of a successfully parsed enrichment response (the JSON object
the prompt requests, or the heuristic line-scan fallback, which also
produces this shape and never throws). -/
structure Parsed where
  summary : String := ""
  keyPoints : List String := []
  tags : List String := []
  sentiment : String := ""
deriving DecidableEq, Repr

/-- Embeds the sentiment clamp: anything outside the three-value enum
collapses to `neutral`. -/
def normSentiment (s : String) : Sentiment :=
  if strLower s = "positive" then .positive
  else if strLower s = "negative" then .negative
  else .neutral

/-- Enrichment patch produced per article (`summary`, `keyPoints`,
`tags`, `sentiment`, `credibilityScore`, `embedding`). -/
structure AiPatch where
  summary : String := ""
  keyPoints : List String := []
  tags : List String := []
  sentiment : Sentiment := .neutral
  credibilityScore : Option Int := none
  embedding : Option (List Rat) := none
deriving DecidableEq, Repr

/-- Embeds `processArticle`. The collaborators are parameters: `ai a` is
the outcome of the completion call plus response parsing for article `a`
(`.error` models any exception on that path), `cred a` is the guarded
credibility attempt (`none` when it threw), and `emb a` the guarded
embedding attempt. With no AI client configured the code returns a patch
with no embedding field at all; on an exception it still attempts the
credibility score and the embedding independently and returns the
degraded defaults. -/
def processArticle (ai : Art → Except Unit Parsed) (cred : Art → Option Int)
    (emb : Art → Option (List Rat)) (aiConfigured : Bool) (a : Art) : AiPatch :=
  if !aiConfigured then
    { summary := "", keyPoints := [], tags := [], sentiment := .neutral,
      credibilityScore := cred a, embedding := none }
  else
    match ai a with
    | .ok p =>
      { summary := p.summary, keyPoints := p.keyPoints, tags := p.tags,
        sentiment := normSentiment p.sentiment, credibilityScore := cred a,
        embedding := emb { a with summary := p.summary, tags := p.tags } }
    | .error _ =>
      { summary := "", keyPoints := [], tags := [], sentiment := .neutral,
        credibilityScore := cred a, embedding := emb a }

/-- Embeds the spread `{...article, ...aiData}` that builds the processed
article (the `processedAt` wall-clock stamp is not modelled). -/
def applyPatch (a : Art) (p : AiPatch) : Art :=
  { a with
    summary := p.summary, keyPoints := p.keyPoints, tags := p.tags,
    sentiment := p.sentiment, credibilityScore := p.credibilityScore,
    embedding := p.embedding }

/-- Embeds `processArticles`: the sequential batch driver, pushing one
output per input. `processArticle` absorbs its own exceptions, and the
driver catch produces the same degraded-default output shape, so the
model folds both fault barriers into the per-article patch. -/
def processArticles (ai : Art → Except Unit Parsed) (cred : Art → Option Int)
    (emb : Art → Option (List Rat)) (aiConfigured : Bool) : List Art → List Art
  | [] => []
  | a :: rest =>
    applyPatch a (processArticle ai cred emb aiConfigured a) ::
      processArticles ai cred emb aiConfigured rest

/-! ## Notification fan-out (`emailService.notifyUsersAboutBatchArticles`) -/

/-- Lowercased `title + ' ' + content` of an article, the text that
subscriber keywords are matched against. -/
def matchText (a : Art) : String :=
  strLower (a.title ++ " " ++ a.content)

/-- Embeds the per-user filter: the articles whose title+content contains
the (already lowercased and trimmed) category keyword. -/
def keywordMatches (articles : List Art) (categoryLower : String) : List Art :=
  articles.filter (fun a => strHas (matchText a) categoryLower)

/-- Embeds `user.category?.toLowerCase().trim()` followed by the
`if (!categoryLower) continue` guard: `none` when the category is absent
or normalizes to the empty string. -/
def normCat (category : Option String) : Option String :=
  match category with
  | none => none
  | some s =>
    let t := strTrim (strLower s)
    if t = "" then none else some t

/-- JS `Map.prototype.set` on an association list: replaces the value at
an existing key in place, otherwise appends the binding. -/
def mapSet (m : List (String × List Art)) (k : String) (v : List Art) :
    List (String × List Art) :=
  match m with
  | [] => [(k, v)]
  | (k', v') :: rest => if k' = k then (k, v) :: rest else (k', v') :: mapSet rest k v

/-- One iteration of the `userArticleMap` construction loop: a user
without a usable category is skipped (`continue`), a user with at least
one matching article gets an entry keyed by their email. -/
def fanStep (articles : List Art) (m : List (String × List Art)) (u : UserR) :
    List (String × List Art) :=
  match normCat u.category with
  | none => m
  | some categoryLower =>
    let matching := keywordMatches articles categoryLower
    if matching.length > 0 then mapSet m u.email matching else m

/-- Embeds the `userArticleMap` construction loop over all users. -/
def buildUserMap (users : List UserR) (articles : List Art) :
    List (String × List Art) :=
  users.foldl (fanStep articles) []

/-- Embeds `notifyUsersAboutBatchArticles`: the result is the list of
dispatched batch emails as (recipient email, matched articles) pairs, in
map order. `smtpConfigured` models the `SMTP_USER`/`SMTP_PASSWORD` guard;
with it unset, or with no input articles, or no users, nothing is
dispatched. -/
def notifyFanout (smtpConfigured : Bool) (users : List UserR) (articles : List Art) :
    List (String × List Art) :=
  if !smtpConfigured then []
  else if articles.length = 0 then []
  else if users.length = 0 then []
  else buildUserMap users articles

/-! ## Scheduler persistence (`services/scheduler.js`) -/

/-- Outcome of one iteration of the save loop: saved, skipped by the
pre-insert existence re-check, skipped by the duplicate-key (11000)
catch, or a non-duplicate save error (the final else branch). -/
inductive SaveOutcome
  | saved
  | skippedExisting
  | skippedDuplicate
  | errored
deriving DecidableEq, Repr

/-- The store's insert under its unique index on `url`: the insert
succeeds (appending the record) exactly when no stored record has the
same url; otherwise it reports the duplicate-key failure (`false`) and
leaves the store unchanged. -/
def dbSave (store : List Art) (a : Art) : List Art × Bool :=
  if store.any (fun b => b.url = a.url) then (store, false)
  else (store ++ [a], true)

/-- Inserts performed by concurrent writers, each through the same
unique-index discipline. -/
def applyInserts (store : List Art) : List Art → List Art
  | [] => store
  | a :: rest => applyInserts (dbSave store a).1 rest

/-- Embeds one iteration of the save loop of `fetchAndProcessArticles`
(lines 53-79): re-check existence by url (`findOne`), skip if present;
otherwise insert, with `interference` the records other writers insert
between the check and the insert (the race window); a duplicate-key
failure of the insert is the benign `skippedDuplicate`, never `errored`
and never retried. -/
def saveStep (store : List Art) (interference : List Art) (a : Art) :
    List Art × SaveOutcome :=
  if store.any (fun b => b.url = a.url) then (store, .skippedExisting)
  else
    let store2 := applyInserts store interference
    match dbSave store2 a with
    | (s, true) => (s, .saved)
    | (s, false) => (s, .skippedDuplicate)

/-- Result of the persistence phase: the final store, the accumulated
`savedArticles` list, the two counters, and the per-article outcomes. -/
structure PersistResult where
  store : List Art
  saved : List Art
  savedCount : Nat
  skippedCount : Nat
  outcomes : List SaveOutcome
deriving DecidableEq, Repr

/-- Embeds the whole save loop over the processed batch, each article
paired with the interference racing its check-then-insert window. -/
def persistLoop (store : List Art) : List (Art × List Art) → PersistResult
  | [] => ⟨store, [], 0, 0, []⟩
  | (a, intf) :: rest =>
    let step := saveStep store intf a
    let r := persistLoop step.1 rest
    { store := r.store,
      saved := (if step.2 = .saved then [a] else []) ++ r.saved,
      savedCount := (if step.2 = .saved then 1 else 0) + r.savedCount,
      skippedCount :=
        (if step.2 = .skippedExisting ∨ step.2 = .skippedDuplicate then 1 else 0) +
          r.skippedCount,
      outcomes := step.2 :: r.outcomes }

/-- Result of one ingestion cycle: final store, newly saved articles,
whether fan-out was invoked, and the dispatched notifications. -/
structure CycleResult where
  store : List Art
  saved : List Art
  notifyInvoked : Bool
  dispatches : List (String × List Art)
deriving DecidableEq, Repr

/-- Embeds `fetchAndProcessArticles`: scrape result in hand, return if it
is empty; bulk-check stored urls and filter the scraped set to unseen
urls, returning if none remain; enrich the remainder (`process` stands
for `aiProcessor.processArticles`); run the save loop (single-cycle view:
no interference inside one sequential cycle); and invoke fan-out only
when the saved list is non-empty. -/
def runCycle (smtpConfigured : Bool) (users : List UserR) (store : List Art)
    (scraped : List Art) (process : Art → Art) : CycleResult :=
  if scraped.length = 0 then ⟨store, [], false, []⟩
  else
    let scrapedUrls := scraped.map (fun a => a.url)
    let existingUrls := (store.filter (fun b => scrapedUrls.contains b.url)).map
      (fun b => b.url)
    let newArticles := scraped.filter (fun a => !existingUrls.contains a.url)
    if newArticles.length = 0 then ⟨store, [], false, []⟩
    else
      let processed := newArticles.map process
      let r := persistLoop store (processed.map (fun p => (p, [])))
      let doNotify := !r.saved.isEmpty
      ⟨r.store, r.saved, doNotify,
        if doNotify then notifyFanout smtpConfigured users r.saved else []⟩

/-! ## Scraper (`services/scraper.js`, `scrapeArticle`) -/

/-- Parsed fields of one article detail page, after the selector
cascade: `dateParsed` is the outcome of the published-date extraction
and validity check of lines 272-282 (`none` when no selector matched or
`new Date(...)` was `NaN`). -/
structure Page where
  url : String := ""
  title : String := ""
  author : String := ""
  dateParsed : Option Int := none
  content : String := ""
  tags : List String := []
deriving DecidableEq, Repr

/-- Embeds `scrapeArticle` (lines 258-318) after page parsing: pages
missing title or content are skipped (`none`); otherwise the raw article
is built, substituting the scrape time `now` when no valid published
date was parsed (`publishedDate || new Date()`). -/
def scrapeArticle (p : Page) (now : Int) : Option Art :=
  if p.title = "" || p.content = "" then none
  else
    some { url := p.url, title := p.title, author := p.author,
           publishedDate := some (p.dateParsed.getD now),
           content := p.content, tags := p.tags }

/-! ## Helper lemmas -/

lemma round_nonneg_of {q : ℚ} (h : 0 ≤ q) : 0 ≤ round q := by
  rw [round_eq]
  exact Int.le_floor.mpr (by push_cast; linarith)

lemma round_le_eighty_of {q : ℚ} (h : q ≤ 80) : round q ≤ 80 := by
  rw [round_eq]
  have hlt : (⌊q + 1 / 2⌋ : ℤ) < 81 := Int.floor_lt.mpr (by push_cast; linarith)
  omega

lemma round_int_mul_five (n : ℤ) : round ((n : ℚ) * 5) = n * 5 := by
  have h : ((n : ℚ) * 5) = ((n * 5 : ℤ) : ℚ) := by push_cast; ring
  rw [h, round_intCast]

lemma sourceScore_mem (url : String) :
    getSourceReliabilityScore url = 0 ∨ getSourceReliabilityScore url = 10 ∨
      getSourceReliabilityScore url = 20 := by
  unfold getSourceReliabilityScore
  cases h : extractDomain url with
  | none => simp
  | some d => dsimp only; split_ifs <;> simp

lemma authorScore_mem (author : String) :
    assessAuthorCredibility author = 0 ∨ assessAuthorCredibility author = 2 ∨
      assessAuthorCredibility author = 5 := by
  unfold assessAuthorCredibility
  split_ifs <;> simp

lemma aiComponentScore_nonneg (an : AiAnalysis) : 0 ≤ aiComponentScore an := by
  unfold aiComponentScore
  apply round_nonneg_of
  have h1 : (0 : ℚ) ≤ min (max (jsOr an.factualAccuracy 65 * (3 / 10)) 0) 30 :=
    le_min (le_max_right _ _) (by norm_num)
  have h2 : (0 : ℚ) ≤ min (max ((100 - jsOr an.sensationalism 35) * (2 / 10)) 0) 20 :=
    le_min (le_max_right _ _) (by norm_num)
  have h3 : (0 : ℚ) ≤ min (max (jsOr an.bias 65 * (15 / 100)) 0) 15 :=
    le_min (le_max_right _ _) (by norm_num)
  have h4 : (0 : ℚ) ≤ min (max (jsOr an.citationQuality 55 * (15 / 100)) 0) 15 :=
    le_min (le_max_right _ _) (by norm_num)
  linarith

lemma aiComponentScore_le_eighty (an : AiAnalysis) : aiComponentScore an ≤ 80 := by
  unfold aiComponentScore
  apply round_le_eighty_of
  have h1 : min (max (jsOr an.factualAccuracy 65 * (3 / 10)) 0) 30 ≤ (30 : ℚ) :=
    min_le_right _ _
  have h2 : min (max ((100 - jsOr an.sensationalism 35) * (2 / 10)) 0) 20 ≤ (20 : ℚ) :=
    min_le_right _ _
  have h3 : min (max (jsOr an.bias 65 * (15 / 100)) 0) 15 ≤ (15 : ℚ) :=
    min_le_right _ _
  have h4 : min (max (jsOr an.citationQuality 55 * (15 / 100)) 0) 15 ≤ (15 : ℚ) :=
    min_le_right _ _
  linarith

/-! ## Claim C3 -/

/-- C3: with an AI model configured (and the completion call returning a
response), `assessCredibility` returns the integer
`clamp(AIscore + sourceScore + temporalScore + authorScore, 0, 100)`,
which lies in [0, 100]; the AI component is individually clamped into
[0, 80], the source score is one of 0/10/20, the temporal score one of
2/5, and the author score one of 0/2/5. -/
theorem assessCredibility_configured_formula (jsonParse : String → Option AiAnalysis)
    (text : String) (t30 : Int) (a : Art) :
    assessCredibility true (.ok text) jsonParse t30 a =
      min (max (aiComponentScore (parsedAnalysis jsonParse text t30 a) +
        getSourceReliabilityScore a.url +
        (if isRecent t30 a.publishedDate then 5 else 2) +
        assessAuthorCredibility a.author) 0) 100 ∧
    0 ≤ assessCredibility true (.ok text) jsonParse t30 a ∧
    assessCredibility true (.ok text) jsonParse t30 a ≤ 100 ∧
    0 ≤ aiComponentScore (parsedAnalysis jsonParse text t30 a) ∧
    aiComponentScore (parsedAnalysis jsonParse text t30 a) ≤ 80 ∧
    (getSourceReliabilityScore a.url = 0 ∨ getSourceReliabilityScore a.url = 10 ∨
      getSourceReliabilityScore a.url = 20) ∧
    ((if isRecent t30 a.publishedDate then (5 : ℤ) else 2) = 2 ∨
      (if isRecent t30 a.publishedDate then (5 : ℤ) else 2) = 5) ∧
    (assessAuthorCredibility a.author = 0 ∨ assessAuthorCredibility a.author = 2 ∨
      assessAuthorCredibility a.author = 5) ∧
    (∀ (cfg : Bool) (callR : Except Unit String) (jsonP : String → Option AiAnalysis)
      (t : Int) (b : Art),
      0 ≤ assessCredibility cfg callR jsonP t b ∧
      assessCredibility cfg callR jsonP t b ≤ 100) := by
  refine ⟨rfl, ?_, ?_, aiComponentScore_nonneg _, aiComponentScore_le_eighty _,
    sourceScore_mem _, ?_, authorScore_mem _, ?_⟩
  · exact le_min (le_max_right _ _) (by norm_num)
  · exact min_le_right _ _
  · split_ifs <;> simp
  · intro cfg callR jsonP t b
    cases cfg with
    | false =>
      have hval : assessCredibility false callR jsonP t b =
          getSourceReliabilityScore b.url * 5 := by
        show round ((getSourceReliabilityScore b.url : ℚ) * 5) = _
        exact round_int_mul_five _
      rw [hval]
      rcases sourceScore_mem b.url with h | h | h <;> omega
    | true =>
      cases callR with
      | error e =>
        have hval : assessCredibility true (.error e) jsonP t b =
            getSourceReliabilityScore b.url * 5 := by
          show round ((getSourceReliabilityScore b.url : ℚ) * 5) = _
          exact round_int_mul_five _
        rw [hval]
        rcases sourceScore_mem b.url with h | h | h <;> omega
      | ok text2 =>
        constructor
        · exact le_min (le_max_right _ _) (by norm_num)
        · exact min_le_right _ _

/-! ## Claim C4 -/

/-- Concrete article of the parse-failure counterexample: unknown
domain, no author, no date. -/
def cexArticle4 : Art := { url := "https://example.com/a" }

/-- Rubric the regex fallback extracts from a response text carrying no
scores: the fixed neutral defaults, with not-recent/no-author adjusted
defaults in the two unused fields. -/
def parseFailAnalysis : AiAnalysis :=
  { factualAccuracy := 65
    sensationalism := 35
    bias := 65
    citationQuality := 55
    temporalRelevance := 50
    authorCredibility := 30 }

/-- C4, counterexample: a response parse failure does not fall back to
the source-only score. With the AI configured, the call returning an
unparsable text and `JSON.parse` failing, the regex fallback yields the
neutral defaults and the full composite 63 for an unknown-domain,
no-author, no-date article, while the source-only score (returned when
the AI is unconfigured, as in the same article's second run below) is
50. -/
theorem assessCredibility_parse_failure_cex :
    assessCredibility true (.ok "I cannot assess this") (fun _ => none) 0 cexArticle4 = 63 ∧
    assessCredibility false (.ok "I cannot assess this") (fun _ => none) 0 cexArticle4 = 50 := by
  have hfb : fallbackExtract "I cannot assess this" 0 cexArticle4 = parseFailAnalysis := by
    unfold fallbackExtract parseFailAnalysis cexArticle4
    norm_num [show numAfter "I cannot assess this" "factual" = none from by decide,
      show numAfter "I cannot assess this" "sensational" = none from by decide,
      show numAfter "I cannot assess this" "bias" = none from by decide,
      show numAfter "I cannot assess this" "citation" = none from by decide,
      show numAfter "I cannot assess this" "temporal" = none from by decide,
      show numAfter "I cannot assess this" "author" = none from by decide,
      isRecent]
  have hai : aiComponentScore parseFailAnalysis = 51 := by
    unfold aiComponentScore parseFailAnalysis jsOr
    norm_num [round_eq]
  constructor
  · show min (max (aiComponentScore
        (fallbackExtract "I cannot assess this" 0 cexArticle4) +
        getSourceReliabilityScore cexArticle4.url +
        (if isRecent 0 cexArticle4.publishedDate then 5 else 2) +
        assessAuthorCredibility cexArticle4.author) 0) 100 = 63
    rw [hfb, hai]
    decide
  · show round ((getSourceReliabilityScore cexArticle4.url : ℚ) * 5) = 50
    rw [round_int_mul_five]
    decide

/-- C4, amended: `assessCredibility` is total (never raises) and falls
back to the source-only score `round(sourceScore * 5) = sourceScore * 5`
exactly when no AI model is configured or the completion call itself
fails; a response parse failure instead degrades to the regex-extracted
rubric and still produces the composite score; and with no AI configured,
an article from a known-reliable domain scores exactly 100. -/
theorem assessCredibility_degraded_paths :
    (∀ (callResult : Except Unit String) (jsonParse : String → Option AiAnalysis)
      (t30 : Int) (a : Art),
      assessCredibility false callResult jsonParse t30 a =
        getSourceReliabilityScore a.url * 5) ∧
    (∀ (jsonParse : String → Option AiAnalysis) (t30 : Int) (a : Art),
      assessCredibility true (.error ()) jsonParse t30 a =
        getSourceReliabilityScore a.url * 5) ∧
    (∀ (text : String) (jsonParse : String → Option AiAnalysis) (t30 : Int) (a : Art),
      jsonParse text = none →
      assessCredibility true (.ok text) jsonParse t30 a =
        min (max (aiComponentScore (fallbackExtract text t30 a) +
          getSourceReliabilityScore a.url +
          (if isRecent t30 a.publishedDate then 5 else 2) +
          assessAuthorCredibility a.author) 0) 100) ∧
    (∀ (callResult : Except Unit String) (jsonParse : String → Option AiAnalysis)
      (t30 : Int) (a : Art) (host : String),
      extractDomain a.url = some host →
      RELIABLE_SOURCES.any (fun r => strHas (strLower host) r) = true →
      assessCredibility false callResult jsonParse t30 a = 100) := by
  refine ⟨?_, ?_, ?_, ?_⟩
  · intro callResult jsonParse t30 a
    show round ((getSourceReliabilityScore a.url : ℚ) * 5) = _
    exact round_int_mul_five _
  · intro jsonParse t30 a
    show round ((getSourceReliabilityScore a.url : ℚ) * 5) = _
    exact round_int_mul_five _
  · intro text jsonParse t30 a h
    show min (max (aiComponentScore (parsedAnalysis jsonParse text t30 a) + _ + _ + _) 0) 100 = _
    unfold parsedAnalysis
    rw [h]
  · intro callResult jsonParse t30 a host hdom hrel
    show round ((getSourceReliabilityScore a.url : ℚ) * 5) = 100
    have hsrc : getSourceReliabilityScore a.url = 20 := by
      unfold getSourceReliabilityScore
      rw [hdom]
      simp [hrel]
    rw [hsrc, round_int_mul_five]
    decide

/-- C4, witness: applies the reliable-domain conjunct at a concrete
thehackernews.com article. -/
theorem assessCredibility_degraded_paths_witness :
    extractDomain "https://thehackernews.com/2024/a" = some "thehackernews.com" ∧
    RELIABLE_SOURCES.any (fun r => strHas (strLower "thehackernews.com") r) = true ∧
    assessCredibility false (.ok "") (fun _ => none) 0
      { url := "https://thehackernews.com/2024/a" } = 100 :=
  ⟨by decide, by decide,
    assessCredibility_degraded_paths.2.2.2 (.ok "") (fun _ => none) 0
      { url := "https://thehackernews.com/2024/a" } "thehackernews.com"
      (by decide) (by decide)⟩

/-! ## Claim C5 -/

/-- Concrete article for exercising the relevance scorers. -/
def cexArticle5 : Art :=
  { title := "Ransomware gang targets hospitals",
    content := "Attackers hit clinics again",
    tags := ["ransomware"] }

/-- C5, counterexample: the notification-time scorer never returns null —
on the empty interest string it returns 50, and on a whitespace-only
interest string it still computes a score. -/
theorem relevance_empty_interest_cex :
    beCalculateRelevanceScore cexArticle5 "" = some 50 ∧
    beCalculateRelevanceScore cexArticle5 " " ≠ none := by
  constructor
  · decide
  · decide

/-- C5, amended: the search-time scorer returns null exactly on an empty
or whitespace-only interest string and an integer in [0, 100] otherwise;
the notification-time scorer instead returns 50 on the empty interest
string and always returns an integer in [0, 100], never null. -/
theorem relevance_score_range :
    (∀ (a : Art) (c : String), c = "" ∨ strTrim c = "" →
      feCalculateRelevanceScore a c = none) ∧
    (∀ (a : Art) (c : String), ¬(c = "" ∨ strTrim c = "") →
      ∃ n, feCalculateRelevanceScore a c = some n ∧ 0 ≤ n ∧ n ≤ 100) ∧
    (∀ a : Art, beCalculateRelevanceScore a "" = some 50) ∧
    (∀ (a : Art) (c : String), ∃ n, beCalculateRelevanceScore a c = some n ∧
      0 ≤ n ∧ n ≤ 100) := by
  refine ⟨?_, ?_, ?_, ?_⟩
  · intro a c h
    rcases h with h | h <;> simp [feCalculateRelevanceScore, h]
  · intro a c h
    push_neg at h
    unfold feCalculateRelevanceScore
    rw [if_neg (by simp [h.1, h.2])]
    exact ⟨_, rfl, le_min (le_max_right _ _) (by norm_num), min_le_right _ _⟩
  · intro a
    simp [beCalculateRelevanceScore]
  · intro a c
    by_cases hc : c = ""
    · exact ⟨50, by simp [beCalculateRelevanceScore, hc], by norm_num, by norm_num⟩
    · unfold beCalculateRelevanceScore
      rw [if_neg hc]
      exact ⟨_, rfl, le_min (le_max_right _ _) (by norm_num), min_le_right _ _⟩

/-- C5, witness: both scorers at a concrete article, with whitespace,
empty, and real interest strings. -/
theorem relevance_score_range_witness :
    feCalculateRelevanceScore cexArticle5 " " = none ∧
    (∃ n, feCalculateRelevanceScore cexArticle5 "ransomware" = some n ∧
      0 ≤ n ∧ n ≤ 100) ∧
    beCalculateRelevanceScore cexArticle5 "" = some 50 ∧
    (∃ n, beCalculateRelevanceScore cexArticle5 "ransomware" = some n ∧
      0 ≤ n ∧ n ≤ 100) :=
  ⟨relevance_score_range.1 cexArticle5 " " (Or.inr (by decide)),
   relevance_score_range.2.1 cexArticle5 "ransomware" (by decide),
   relevance_score_range.2.2.1 cexArticle5,
   relevance_score_range.2.2.2 cexArticle5 "ransomware"⟩

/-! ## Claim C7 -/

lemma processArticles_eq_map (ai : Art → Except Unit Parsed) (cred : Art → Option Int)
    (emb : Art → Option (List Rat)) (cfg : Bool) (articles : List Art) :
    processArticles ai cred emb cfg articles =
      articles.map (fun a => applyPatch a (processArticle ai cred emb cfg a)) := by
  induction articles with
  | nil => rfl
  | cons a t ih => simp [processArticles, ih]

/-- C7: the batch driver returns exactly one output per input, in input
order (same url/title/content at each index), and an exception while
processing one article yields the degraded defaults for that article —
empty summary, key points and tags, neutral sentiment — with the
credibility and embedding attempts still recorded independently. -/
theorem processArticles_fault_isolation (ai : Art → Except Unit Parsed)
    (cred : Art → Option Int) (emb : Art → Option (List Rat)) (articles : List Art) :
    (processArticles ai cred emb true articles).length = articles.length ∧
    (∀ (i : Nat) (a : Art), articles[i]? = some a →
      ∃ out, (processArticles ai cred emb true articles)[i]? = some out ∧
        out.url = a.url ∧ out.title = a.title ∧ out.content = a.content ∧
        (ai a = .error () →
          out.summary = "" ∧ out.keyPoints = [] ∧ out.tags = [] ∧
          out.sentiment = .neutral ∧ out.credibilityScore = cred a ∧
          out.embedding = emb a)) := by
  rw [processArticles_eq_map]
  refine ⟨List.length_map _ _, ?_⟩
  intro i a ha
  refine ⟨applyPatch a (processArticle ai cred emb true a), ?_, rfl, rfl, rfl, ?_⟩
  · rw [List.getElem?_map, ha]
    rfl
  · intro herr
    simp [processArticle, applyPatch, herr]

/-- Enrichment oracle for the C7 witness: fails on the second article. -/
def w7ai : Art → Except Unit Parsed := fun a =>
  if a.title = "good" then
    .ok { summary := "S", keyPoints := ["k"], tags := ["t"], sentiment := "positive" }
  else .error ()

/-- C7, witness: a two-article batch whose second article's enrichment
throws still yields two outputs, the second degraded but with its
credibility score and embedding recorded. -/
theorem processArticles_fault_isolation_witness :
    (processArticles w7ai (fun _ => some 42) (fun _ => some [1]) true
      [{ title := "good" }, { title := "bad" }]).length = 2 ∧
    (∃ out, (processArticles w7ai (fun _ => some 42) (fun _ => some [1]) true
        [{ title := "good" }, { title := "bad" }])[1]? = some out ∧
      out.url = Art.url { title := "bad" } ∧
      out.title = Art.title { title := "bad" } ∧
      out.content = Art.content { title := "bad" } ∧
      (w7ai { title := "bad" } = .error () →
        out.summary = "" ∧ out.keyPoints = [] ∧ out.tags = [] ∧
        out.sentiment = .neutral ∧
        out.credibilityScore = some 42 ∧ out.embedding = some [1])) :=
  ⟨(processArticles_fault_isolation w7ai (fun _ => some 42) (fun _ => some [1])
      [{ title := "good" }, { title := "bad" }]).1,
   (processArticles_fault_isolation w7ai (fun _ => some 42) (fun _ => some [1])
      [{ title := "good" }, { title := "bad" }]).2 1 { title := "bad" } rfl⟩

/-! ## Claim C8 -/

lemma sumSq_nonneg (v : List ℝ) : 0 ≤ sumSq v := by
  unfold sumSq
  apply List.sum_nonneg
  intro x hx
  obtain ⟨y, _, rfl⟩ := List.mem_map.mp hx
  exact mul_self_nonneg y

lemma dotProduct_self (v : List ℝ) : dotProduct v v = sumSq v := by
  induction v with
  | nil => rfl
  | cons x t ih =>
    unfold dotProduct sumSq at ih ⊢
    simp only [List.zipWith_cons_cons, List.map_cons, List.sum_cons, ih]

/-- C8: `cosineSimilarity` returns 0 when either vector is absent, when
the lengths differ, and when either vector has zero magnitude; on any
vector of non-zero magnitude paired with itself it returns exactly 1. -/
theorem cosineSimilarity_spec :
    (∀ b, cosineSimilarity none b = 0) ∧
    (∀ a, cosineSimilarity a none = 0) ∧
    (∀ a b, a.length ≠ b.length → cosineSimilarity (some a) (some b) = 0) ∧
    (∀ a b, sumSq a = 0 → cosineSimilarity (some a) (some b) = 0) ∧
    (∀ a b, sumSq b = 0 → cosineSimilarity (some a) (some b) = 0) ∧
    (∀ v, sumSq v ≠ 0 → cosineSimilarity (some v) (some v) = 1) := by
  refine ⟨?_, ?_, ?_, ?_, ?_, ?_⟩
  · intro b; cases b <;> rfl
  · intro a; cases a <;> rfl
  · intro a b h
    unfold cosineSimilarity
    dsimp only
    rw [if_pos h]
  · intro a b h
    unfold cosineSimilarity
    dsimp only
    split_ifs with h1 h2
    · rfl
    · rfl
    · exact absurd (Or.inl (by rw [h, Real.sqrt_zero])) h2
  · intro a b h
    unfold cosineSimilarity
    dsimp only
    split_ifs with h1 h2
    · rfl
    · rfl
    · exact absurd (Or.inr (by rw [h, Real.sqrt_zero])) h2
  · intro v hv
    have hnn := sumSq_nonneg v
    have hsq : Real.sqrt (sumSq v) ≠ 0 := by
      rw [Ne, Real.sqrt_eq_zero hnn]
      exact hv
    unfold cosineSimilarity
    dsimp only
    rw [if_neg (by simp), if_neg (by push_neg; exact ⟨hsq, hsq⟩)]
    rw [dotProduct_self, Real.mul_self_sqrt hnn]
    exact div_self hv

/-- C8, witness: the singleton vector `[1]` has non-zero magnitude and
cosine similarity 1 with itself. -/
theorem cosineSimilarity_spec_witness :
    sumSq [(1 : ℝ)] ≠ 0 ∧ cosineSimilarity (some [(1 : ℝ)]) (some [(1 : ℝ)]) = 1 :=
  ⟨by norm_num [sumSq], cosineSimilarity_spec.2.2.2.2.2 [(1 : ℝ)] (by norm_num [sumSq])⟩

/-! ## Claim C10 -/

/-- C10: every article produced by `scrapeArticle` carries a present
`publishedDate`; when no valid date was parsed the scrape time is
substituted, so the article never takes the credibility scorer's
absent-date branch and is classified as recent (the scrape time is at or
after the thirty-days-ago mark). -/
theorem scrapeArticle_date_present (p : Page) (now t30 : Int) (a : Art)
    (h : scrapeArticle p now = some a) :
    a.publishedDate.isSome = true ∧
    (p.dateParsed = none → t30 ≤ now →
      a.publishedDate = some now ∧ isRecent t30 a.publishedDate = true) := by
  unfold scrapeArticle at h
  by_cases hb : (p.title = "" || p.content = "") = true
  · rw [if_pos hb] at h
    cases h
  · rw [if_neg hb] at h
    rw [Option.some.injEq] at h
    subst h
    refine ⟨rfl, ?_⟩
    intro hd h30
    rw [hd]
    exact ⟨rfl, by simp [isRecent, h30]⟩

/-- Page for the C10 witness. -/
def w10page : Page := { url := "https://x.com/a", title := "T", content := "C" }

/-- Article `scrapeArticle` produces from `w10page` at scrape time 7. -/
def w10out : Art :=
  { url := "https://x.com/a", title := "T", publishedDate := some 7, content := "C" }

/-- C10, witness: a page with no parseable date, scraped at time 7,
yields an article dated 7 that is classified recent against the
thirty-days-ago mark -23. -/
theorem scrapeArticle_date_present_witness :
    scrapeArticle w10page 7 = some w10out ∧
    w10out.publishedDate.isSome = true ∧
    w10out.publishedDate = some 7 ∧ isRecent (-23) w10out.publishedDate = true := by
  have h := scrapeArticle_date_present w10page 7 (-23) w10out (by decide)
  exact ⟨by decide, h.1, (h.2 rfl (by decide)).1, (h.2 rfl (by decide)).2⟩

/-! ## Claim C1 -/

/-- The dedup invariant: no two stored records share a url. -/
def urlNodup (store : List Art) : Prop :=
  (store.map (fun a => a.url)).Nodup

lemma urlAppend_nodup {store : List Art} (a : Art) (h : urlNodup store)
    (ha : ¬store.any (fun b => b.url = a.url) = true) : urlNodup (store ++ [a]) := by
  have hnot : ∀ b ∈ store, ¬(b.url = a.url) := by simpa using ha
  unfold urlNodup at h ⊢
  rw [List.map_append, List.nodup_append]
  refine ⟨h, List.nodup_singleton _, ?_⟩
  intro x hx hx1
  simp only [List.map_cons, List.map_nil, List.mem_singleton] at hx1
  obtain ⟨b, hb, rfl⟩ := List.mem_map.mp hx
  exact hnot b hb hx1

lemma dbSave_nodup {store : List Art} (a : Art) (h : urlNodup store) :
    urlNodup (dbSave store a).1 := by
  unfold dbSave
  split_ifs with hmem
  · exact h
  · exact urlAppend_nodup a h hmem

lemma dbSave_mem {store : List Art} (a : Art) {u : String}
    (h : u ∈ store.map (fun b => b.url)) : u ∈ (dbSave store a).1.map (fun b => b.url) := by
  unfold dbSave
  split_ifs
  · exact h
  · simp only [List.map_append, List.mem_append]
    exact Or.inl h

lemma applyInserts_nodup {store : List Art} (l : List Art) (h : urlNodup store) :
    urlNodup (applyInserts store l) := by
  induction l generalizing store with
  | nil => exact h
  | cons a t ih => exact ih (dbSave_nodup a h)

lemma applyInserts_mem {store : List Art} (l : List Art) {u : String}
    (h : u ∈ store.map (fun b => b.url)) :
    u ∈ (applyInserts store l).map (fun b => b.url) := by
  induction l generalizing store with
  | nil => exact h
  | cons a t ih => exact ih (dbSave_mem a h)

lemma saveStep_eq (store intf : List Art) (a : Art) :
    saveStep store intf a =
      if store.any (fun b => b.url = a.url) then (store, .skippedExisting)
      else if (applyInserts store intf).any (fun b => b.url = a.url) then
        (applyInserts store intf, .skippedDuplicate)
      else (applyInserts store intf ++ [a], .saved) := by
  unfold saveStep dbSave
  by_cases h1 : store.any (fun b => b.url = a.url) = true
  · rw [if_pos h1, if_pos h1]
  · rw [if_neg h1, if_neg h1]
    dsimp only
    by_cases h2 : (applyInserts store intf).any (fun b => b.url = a.url) = true
    · rw [if_pos h2, if_pos h2]
    · rw [if_neg h2, if_neg h2]

lemma saveStep_nodup {store : List Art} (intf : List Art) (a : Art) (h : urlNodup store) :
    urlNodup (saveStep store intf a).1 := by
  rw [saveStep_eq]
  split_ifs with h1 h2
  · exact h
  · exact applyInserts_nodup intf h
  · exact urlAppend_nodup a (applyInserts_nodup intf h) h2

lemma saveStep_mem {store : List Art} (intf : List Art) (a : Art) {u : String}
    (h : u ∈ store.map (fun b => b.url)) :
    u ∈ (saveStep store intf a).1.map (fun b => b.url) := by
  rw [saveStep_eq]
  split_ifs with h1 h2
  · exact h
  · exact applyInserts_mem intf h
  · simp only [List.map_append, List.mem_append]
    exact Or.inl (applyInserts_mem intf h)

lemma saveStep_saved {store : List Art} (intf : List Art) (a : Art)
    (h : (saveStep store intf a).2 = .saved) : a.url ∉ store.map (fun b => b.url) := by
  rw [saveStep_eq] at h
  split_ifs at h with h1 h2
  simp only [List.any_eq_true, decide_eq_true_eq] at h1
  simp only [List.mem_map]
  rintro ⟨b, hb, hba⟩
  exact h1 ⟨b, hb, hba⟩

lemma saveStep_not_errored {store : List Art} (intf : List Art) (a : Art) :
    (saveStep store intf a).2 ≠ .errored := by
  rw [saveStep_eq]
  split_ifs <;> simp

lemma persistLoop_nodup {store : List Art} (batch : List (Art × List Art))
    (h : urlNodup store) : urlNodup (persistLoop store batch).store := by
  induction batch generalizing store with
  | nil => exact h
  | cons p t ih => exact ih (saveStep_nodup p.2 p.1 h)

lemma persistLoop_store_mem {store : List Art} (batch : List (Art × List Art)) {u : String}
    (h : u ∈ store.map (fun b => b.url)) :
    u ∈ (persistLoop store batch).store.map (fun b => b.url) := by
  induction batch generalizing store with
  | nil => exact h
  | cons p t ih => exact ih (saveStep_mem p.2 p.1 h)

lemma persistLoop_saved_fresh {store : List Art} (batch : List (Art × List Art))
    {a : Art} (ha : a ∈ (persistLoop store batch).saved) :
    a.url ∉ store.map (fun b => b.url) := by
  induction batch generalizing store with
  | nil => cases ha
  | cons p t ih =>
    simp only [persistLoop, List.mem_append] at ha
    rcases ha with ha | ha
    · split_ifs at ha with ho
      · rw [List.mem_singleton] at ha
        subst ha
        exact saveStep_saved p.2 p.1 ho
      · cases ha
    · intro hmem
      exact ih ha (saveStep_mem p.2 p.1 hmem)

lemma persistLoop_outcomes {store : List Art} (batch : List (Art × List Art))
    {o : SaveOutcome} (ho : o ∈ (persistLoop store batch).outcomes) : o ≠ .errored := by
  induction batch generalizing store with
  | nil => cases ho
  | cons p t ih =>
    simp only [persistLoop, List.mem_cons] at ho
    rcases ho with ho | ho
    · subst ho
      exact saveStep_not_errored p.2 p.1
    · exact ih ho

lemma urlNodup_count_le_one {store : List Art} (h : urlNodup store) (u : String) :
    (store.filter (fun b => b.url = u)).length ≤ 1 := by
  induction store with
  | nil => simp
  | cons a t ih =>
    simp only [urlNodup, List.map_cons, List.nodup_cons] at h
    by_cases hu : a.url = u
    · have hz : t.filter (fun b => b.url = u) = [] := by
        rw [List.filter_eq_nil_iff]
        intro b hb
        simp only [decide_eq_true_eq]
        intro hbu
        exact h.1 (by rw [← hu] at hbu; exact List.mem_map.mpr ⟨b, hb, hbu⟩)
      simp [List.filter, hu, hz]
    · have := ih h.2
      simp only [List.filter, hu]
      simpa [decide_eq_false hu]

/-- C1: the persistence loop preserves the dedup invariant under any
interference that goes through the store's unique index — afterwards no
two stored records share a url, every url has at most one record, every
article in the saved list was fresh at cycle start, and a duplicate-key
insert failure is a benign skip, never an error outcome. -/
theorem persist_dedup_invariant (store : List Art) (batch : List (Art × List Art))
    (h : urlNodup store) :
    urlNodup (persistLoop store batch).store ∧
    (∀ u : String, ((persistLoop store batch).store.filter (fun b => b.url = u)).length ≤ 1) ∧
    (∀ a ∈ (persistLoop store batch).saved, a.url ∉ store.map (fun b => b.url)) ∧
    (∀ o ∈ (persistLoop store batch).outcomes, o ≠ .errored) :=
  ⟨persistLoop_nodup batch h,
   fun u => urlNodup_count_le_one (persistLoop_nodup batch h) u,
   fun _ ha => persistLoop_saved_fresh batch ha,
   fun _ ho => persistLoop_outcomes batch ho⟩

/-- C1, witness: starting from a store holding url `u1`, a batch whose
first article duplicates `u1` (skipped by the re-check) and whose second
article races a concurrent insert of its own url `u2` (skipped by the
duplicate-key catch) ends with a deduplicated store, at most one record
per url, and no error outcome. -/
theorem persist_dedup_invariant_witness :
    urlNodup [{ url := "https://u1" }] ∧
    (persistLoop [{ url := "https://u1" }]
      [({ url := "https://u1", title := "again" }, []),
       ({ url := "https://u2" }, [{ url := "https://u2", title := "race" }])]).outcomes =
      [.skippedExisting, .skippedDuplicate] ∧
    urlNodup (persistLoop [{ url := "https://u1" }]
      [({ url := "https://u1", title := "again" }, []),
       ({ url := "https://u2" }, [{ url := "https://u2", title := "race" }])]).store ∧
    ((persistLoop [{ url := "https://u1" }]
      [({ url := "https://u1", title := "again" }, []),
       ({ url := "https://u2" }, [{ url := "https://u2", title := "race" }])]).store.filter
        (fun b => b.url = "https://u2")).length ≤ 1 := by
  have hn : urlNodup [({ url := "https://u1" } : Art)] := by
    unfold urlNodup
    decide
  have h := persist_dedup_invariant [{ url := "https://u1" }]
    [({ url := "https://u1", title := "again" }, []),
     ({ url := "https://u2" }, [{ url := "https://u2", title := "race" }])] hn
  exact ⟨hn, by decide, h.1, h.2.1 "https://u2"⟩

/-! ## Claim C2 -/

lemma newArticles_nil {store scraped : List Art}
    (h : ∀ a ∈ scraped, a.url ∈ store.map (fun b => b.url)) :
    scraped.filter (fun a =>
      !((store.filter (fun b => (scraped.map (fun c => c.url)).contains b.url)).map
        (fun b => b.url)).contains a.url) = [] := by
  rw [List.filter_eq_nil_iff]
  intro a ha
  simp only [Bool.not_eq_true', Bool.not_eq_false]
  suffices hmem : a.url ∈ (store.filter
      (fun b => (scraped.map (fun c => c.url)).contains b.url)).map (fun b => b.url) by
    simpa using hmem
  obtain ⟨b, hb, hba⟩ := List.mem_map.mp (h a ha)
  refine List.mem_map.mpr ⟨b, List.mem_filter.mpr ⟨hb, ?_⟩, hba⟩
  have : b.url ∈ scraped.map (fun c => c.url) := by
    rw [hba]
    exact List.mem_map.mpr ⟨a, ha, rfl⟩
  simpa using this

lemma runCycle_notify (smtp : Bool) (users : List UserR) (store scraped : List Art)
    (process : Art → Art) :
    (runCycle smtp users store scraped process).notifyInvoked =
      !(runCycle smtp users store scraped process).saved.isEmpty := by
  unfold runCycle
  by_cases h0 : scraped.length = 0
  · rw [if_pos h0]
    rfl
  · rw [if_neg h0]
    dsimp only
    by_cases h1 : (scraped.filter (fun a =>
        !((store.filter (fun b => (scraped.map (fun c => c.url)).contains b.url)).map
          (fun b => b.url)).contains a.url)).length = 0
    · rw [if_pos h1]
      rfl
    · rw [if_neg h1]

/-- C2: when every scraped article's url is already stored, the cycle
changes nothing — the store is unchanged, nothing is saved, fan-out is
not invoked and no notification is dispatched; and in every cycle,
fan-out is invoked only when the saved list is non-empty. -/
theorem ingestion_idempotent :
    (∀ (smtp : Bool) (users : List UserR) (store scraped : List Art) (process : Art → Art),
      (∀ a ∈ scraped, a.url ∈ store.map (fun b => b.url)) →
      runCycle smtp users store scraped process = ⟨store, [], false, []⟩) ∧
    (∀ (smtp : Bool) (users : List UserR) (store scraped : List Art) (process : Art → Art),
      (runCycle smtp users store scraped process).notifyInvoked = true →
      (runCycle smtp users store scraped process).saved ≠ []) := by
  constructor
  · intro smtp users store scraped process h
    unfold runCycle
    by_cases h0 : scraped.length = 0
    · rw [if_pos h0]
    · rw [if_neg h0]
      dsimp only
      rw [newArticles_nil h]
      simp
  · intro smtp users store scraped process h
    rw [runCycle_notify] at h
    intro hnil
    rw [hnil] at h
    simp at h

/-- C2, witness: re-scraping an already-stored url changes nothing and
dispatches nothing, while a cycle that saves an article does invoke
fan-out with a non-empty saved list. -/
theorem ingestion_idempotent_witness :
    runCycle false [] [{ url := "https://u1" }] [{ url := "https://u1", title := "t" }] id =
      ⟨[{ url := "https://u1" }], [], false, []⟩ ∧
    (runCycle false [] [] [{ url := "https://u2" }] id).notifyInvoked = true ∧
    (runCycle false [] [] [{ url := "https://u2" }] id).saved ≠ [] :=
  ⟨ingestion_idempotent.1 false [] [{ url := "https://u1" }]
      [{ url := "https://u1", title := "t" }] id (by decide),
   by decide,
   ingestion_idempotent.2 false [] [] [{ url := "https://u2" }] id (by decide)⟩

/-! ## Claims C6 and C9 -/

lemma mapSet_filter_ne {m : List (String × List Art)} {k e : String} (v : List Art)
    (h : k ≠ e) :
    (mapSet m k v).filter (fun x => x.1 = e) = m.filter (fun x => x.1 = e) := by
  induction m with
  | nil => simp [mapSet, h]
  | cons p t ih =>
    rcases p with ⟨k', v'⟩
    unfold mapSet
    split_ifs with hk
    · subst hk
      simp [List.filter_cons, h]
    · simp only [List.filter_cons]
      rw [ih]

lemma mapSet_filter_self {m : List (String × List Art)} {e : String} (v : List Art)
    (h : m.filter (fun x => x.1 = e) = []) :
    (mapSet m e v).filter (fun x => x.1 = e) = [(e, v)] := by
  induction m with
  | nil => simp [mapSet]
  | cons p t ih =>
    rcases p with ⟨k', v'⟩
    simp only [List.filter_cons] at h
    by_cases he : k' = e
    · simp [he] at h
    · simp only [decide_eq_true_eq, he, if_false] at h
      unfold mapSet
      rw [if_neg he]
      simp only [List.filter_cons, decide_eq_true_eq, he, if_false]
      exact ih h

lemma fanFold_filter_skip (articles : List Art) {users : List UserR} {e : String}
    (h : ∀ w ∈ users, w.email ≠ e) (m : List (String × List Art)) :
    (users.foldl (fanStep articles) m).filter (fun x => x.1 = e) =
      m.filter (fun x => x.1 = e) := by
  induction users generalizing m with
  | nil => rfl
  | cons u t ih =>
    rw [List.foldl_cons, ih (fun w hw => h w (List.mem_cons_of_mem u hw))]
    unfold fanStep
    cases hc : normCat u.category with
    | none => rfl
    | some cl =>
      dsimp only
      split_ifs with hm
      · exact mapSet_filter_ne _ (h u (List.mem_cons_self u t))
      · rfl

lemma nodup_emails_split {pre post : List UserR} {u : UserR}
    (hN : ((pre ++ u :: post).map (fun w => w.email)).Nodup) :
    (∀ w ∈ pre, w.email ≠ u.email) ∧ (∀ w ∈ post, w.email ≠ u.email) := by
  rw [List.map_append, List.nodup_append] at hN
  obtain ⟨h1, h2, hdisj⟩ := hN
  rw [List.map_cons, List.nodup_cons] at h2
  constructor
  · intro w hw heq
    exact hdisj (List.mem_map.mpr ⟨w, hw, rfl⟩)
      (by rw [heq]; exact List.mem_cons_self _ _)
  · intro w hw heq
    exact h2.1 (List.mem_map.mpr ⟨w, hw, heq⟩)

lemma fanStep_query (articles : List Art) (m : List (String × List Art)) (u : UserR)
    (q : Option String) :
    fanStep articles m { u with semanticQuery := q } = fanStep articles m u := rfl

lemma foldl_fanStep_query (articles : List Art) (f : UserR → Option String)
    (users : List UserR) (m : List (String × List Art)) :
    users.foldl (fun m' y => fanStep articles m' { y with semanticQuery := f y }) m =
      users.foldl (fanStep articles) m := by
  induction users generalizing m with
  | nil => rfl
  | cons u t ih => rw [List.foldl_cons, List.foldl_cons, fanStep_query, ih]

lemma notifyFanout_red {users : List UserR} {articles : List Art}
    (ha : ¬articles.length = 0) (hu : ¬users.length = 0) :
    notifyFanout true users articles = buildUserMap users articles := by
  unfold notifyFanout
  rw [if_neg (by simp), if_neg ha, if_neg hu]

/-- C6: with distinct subscriber emails, a subscriber whose normalized
category keyword matches at least one saved article receives exactly one
batched dispatch, containing exactly the matching articles; a subscriber
with zero matching articles receives nothing. -/
theorem fanout_exact_matching (smtp : Bool) (users : List UserR) (articles : List Art)
    (u : UserR) (cl : String)
    (hN : (users.map (fun w => w.email)).Nodup) (hu : u ∈ users)
    (hc : normCat u.category = some cl) (hs : smtp = true) :
    (keywordMatches articles cl ≠ [] →
      (notifyFanout smtp users articles).filter (fun x => x.1 = u.email) =
        [(u.email, keywordMatches articles cl)]) ∧
    (keywordMatches articles cl = [] →
      (notifyFanout smtp users articles).filter (fun x => x.1 = u.email) = []) := by
  subst hs
  by_cases ha : articles.length = 0
  · have hart : articles = [] := List.length_eq_zero.mp ha
    subst hart
    constructor
    · intro hne
      exact absurd rfl hne
    · intro _
      unfold notifyFanout
      rw [if_neg (by simp), if_pos ha]
      rfl
  · by_cases hu0 : users.length = 0
    · rw [List.length_eq_zero.mp hu0] at hu
      cases hu
    · rw [notifyFanout_red ha hu0]
      obtain ⟨pre, post, rfl⟩ := List.append_of_mem hu
      obtain ⟨hpre, hpost⟩ := nodup_emails_split hN
      unfold buildUserMap
      rw [List.foldl_append, List.foldl_cons]
      have hm1 : (pre.foldl (fanStep articles) []).filter (fun x => x.1 = u.email) = [] := by
        rw [fanFold_filter_skip articles hpre []]
        rfl
      constructor
      · intro hne
        have hstep : (fanStep articles (pre.foldl (fanStep articles) []) u).filter
            (fun x => x.1 = u.email) = [(u.email, keywordMatches articles cl)] := by
          unfold fanStep
          rw [hc]
          dsimp only
          rw [if_pos (List.length_pos.mpr hne)]
          exact mapSet_filter_self _ hm1
        rw [fanFold_filter_skip articles hpost _, hstep]
      · intro heq
        have hstep : fanStep articles (pre.foldl (fanStep articles) []) u =
            pre.foldl (fanStep articles) [] := by
          unfold fanStep
          rw [hc]
          dsimp only
          rw [if_neg (by rw [heq]; simp)]
        rw [fanFold_filter_skip articles hpost _, hstep, hm1]

/-- Saved articles for the C6 witness scenario: only the first contains
the keyword `malware` in title or content. -/
def w6a1 : Art := { title := "New malware campaign", content := "A strain spreads" }

/-- Second saved article of the C6 scenario (no keyword match). -/
def w6a2 : Art := { title := "Phishing wave", content := "Emails impersonate banks" }

/-- Third saved article of the C6 scenario (no keyword match). -/
def w6a3 : Art := { title := "Data breach", content := "Records leaked" }

/-- Subscriber of the C6 scenario. -/
def w6user : UserR := { email := "sub@x.com", category := some "malware" }

/-- C6, witness: with three saved articles of which exactly one matches
`malware`, the subscriber receives exactly one batched dispatch
containing exactly that article. -/
theorem fanout_exact_matching_witness :
    keywordMatches [w6a1, w6a2, w6a3] "malware" = [w6a1] ∧
    (notifyFanout true [w6user] [w6a1, w6a2, w6a3]).filter
      (fun x => x.1 = "sub@x.com") = [("sub@x.com", [w6a1])] ∧
    notifyFanout true [w6user] [w6a1, w6a2, w6a3] = [("sub@x.com", [w6a1])] := by
  refine ⟨by decide, ?_, by decide⟩
  have h := (fanout_exact_matching true [w6user] [w6a1, w6a2, w6a3] w6user "malware"
    (by decide) (by decide) (by decide) rfl).1 (by decide)
  rw [show keywordMatches [w6a1, w6a2, w6a3] "malware" = [w6a1] from by decide] at h
  exact h

/-- C9, counterexample: a semantic-query-only subscriber whose query text
does occur in a saved article's title receives nothing — the fan-out
dispatch list is empty, because the loop skips every user without a
usable category and never consults `semanticQuery`. -/
theorem fanout_semanticQuery_cex :
    strHas (matchText { title := "New malware strain", content := "details" })
      "malware" = true ∧
    notifyFanout true [{ email := "s@x.com", semanticQuery := some "malware" }]
      [{ title := "New malware strain", content := "details" }] = [] := by
  constructor
  · decide
  · decide

/-- C9, amended: notification-time matching reads only the category
keyword — the fan-out result is invariant under arbitrary rewrites of
every subscriber's `semanticQuery`, and (with distinct emails) a
subscriber without a usable category, whatever their `semanticQuery`,
receives nothing. -/
theorem fanout_ignores_semanticQuery :
    (∀ (smtp : Bool) (users : List UserR) (articles : List Art) (f : UserR → Option String),
      notifyFanout smtp (users.map (fun u => { u with semanticQuery := f u })) articles =
        notifyFanout smtp users articles) ∧
    (∀ (smtp : Bool) (users : List UserR) (articles : List Art) (u : UserR),
      (users.map (fun w => w.email)).Nodup → u ∈ users → normCat u.category = none →
      (notifyFanout smtp users articles).filter (fun x => x.1 = u.email) = []) := by
  constructor
  · intro smtp users articles f
    have hb : buildUserMap (users.map (fun u => { u with semanticQuery := f u })) articles =
        buildUserMap users articles := by
      unfold buildUserMap
      rw [List.foldl_map]
      exact foldl_fanStep_query articles f users []
    unfold notifyFanout
    rw [List.length_map, hb]
  · intro smtp users articles u hN hu hc
    cases smtp with
    | false => rfl
    | true =>
      by_cases ha : articles.length = 0
      · unfold notifyFanout
        rw [if_neg (by simp), if_pos ha]
        rfl
      · by_cases hu0 : users.length = 0
        · rw [List.length_eq_zero.mp hu0] at hu
          cases hu
        · rw [notifyFanout_red ha hu0]
          obtain ⟨pre, post, rfl⟩ := List.append_of_mem hu
          obtain ⟨hpre, hpost⟩ := nodup_emails_split hN
          unfold buildUserMap
          rw [List.foldl_append, List.foldl_cons]
          have hstep : fanStep articles (pre.foldl (fanStep articles) []) u =
              pre.foldl (fanStep articles) [] := by
            unfold fanStep
            rw [hc]
          rw [fanFold_filter_skip articles hpost _, hstep,
            fanFold_filter_skip articles hpre []]
          rfl

/-- Subscribers of the C9 witness: one keyword subscriber and one
semantic-query-only subscriber. -/
def w9kw : UserR := { email := "a@x.com", category := some "phishing" }

/-- Semantic-query-only subscriber of the C9 witness. -/
def w9sem : UserR := { email := "b@x.com", semanticQuery := some "phishing" }

/-- Saved article of the C9 witness, matching the semantic query text. -/
def w9art : Art := { title := "Phishing wave", content := "Emails impersonate banks" }

/-- C9, witness: over one article whose title contains the semantic query
text, the semantic-query-only subscriber receives nothing, and rewriting
every subscriber's `semanticQuery` leaves the dispatch list unchanged. -/
theorem fanout_ignores_semanticQuery_witness :
    ([w9kw, w9sem].map (fun w => UserR.email w)).Nodup ∧
    (notifyFanout true [w9kw, w9sem] [w9art]).filter
      (fun x => x.1 = w9sem.email) = [] ∧
    notifyFanout true ([w9kw, w9sem].map (fun u => { u with semanticQuery := none }))
      [w9art] = notifyFanout true [w9kw, w9sem] [w9art] :=
  ⟨by decide,
   fanout_ignores_semanticQuery.2 true [w9kw, w9sem] [w9art] w9sem
     (by decide) (by decide) rfl,
   fanout_ignores_semanticQuery.1 true [w9kw, w9sem] [w9art] (fun _ => none)⟩

end SheepAI
